import Mathlib

/-!
Shallow embedding of the repo2prompt pipeline (src/src/index.ts) and proofs
about its components: the Pattern Loader (`getIgnoreList` and the
positive/negative split), the Binary Classifier (`isBinaryFile`), the Bounded
Stream Writer (`streamFileWithLimit`), the File-Set Resolver
(`nonIgnoredFiles`), and the Document Assembler (`buildTableOfContents`,
`writeFilesWithIndex`, and the document layout of `main`).

Filesystem effects are modelled explicitly: file contents are byte lists
(`List Nat`, each entry < 256 conceptually), a read-stream delivers a list of
chunks, per-file stat/open outcomes are a `FileOutcome` oracle, and the output
sink is the list of write events issued to it, in order.
-/

namespace Repo2Prompt

/-! ### Bounded Stream Writer (src/src/index.ts, `streamFileWithLimit`, lines 201-257) -/

/-- Byte rendering of the truncation marker string `"\n[TRUNCATED]\n"` that
`streamFileWithLimit` writes right after the truncated prefix. -/
def truncMarker : List Nat := [10, 91, 84, 82, 85, 78, 67, 65, 84, 69, 68, 93, 10]

/-- One step per `data` event of the read stream: if writing the whole chunk
would exceed `maxSize`, write only the first `maxSize - bytesWritten` bytes,
then the truncation marker, and stop consuming (the stream is destroyed);
otherwise write the chunk whole and continue with the updated byte count. -/
def streamLoop (maxSize : Nat) : List (List Nat) → Nat → List Nat
  | [], _ => []
  | chunk :: rest, bytesWritten =>
    if bytesWritten + chunk.length > maxSize then
      chunk.take (maxSize - bytesWritten) ++ truncMarker
    else
      chunk ++ streamLoop maxSize rest (bytesWritten + chunk.length)

/-- Bytes that `streamFileWithLimit` writes to the output stream for a source
file delivered as the given chunk sequence, with byte ceiling `maxSize`. -/
def streamFileWithLimit (chunks : List (List Nat)) (maxSize : Nat) : List Nat :=
  streamLoop maxSize chunks 0

/-! ### Pattern Loader (src/src/index.ts, `getIgnoreList` lines 139-155, and the
positive/negative split in `main`, lines 410-411) -/

/-- Separator normalization applied on a backslash-convention host:
every `/` becomes `\`. -/
def winSep (c : Char) : Char := if c = '/' then '\\' else c

/-- On win32, `pattern.replace(/\//g, '\\')`; elsewhere the pattern unchanged. -/
def normalizePat (isWin32 : Bool) (p : String) : String :=
  if isWin32 then ⟨p.data.map winSep⟩ else p

/-- Pattern Loader: split the raw ignore-file text on line endings, trim each
line, skip lines that are empty after trimming or whose first character is
`#`, and keep the rest (separator-normalized on win32). Splitting on `"\n"`
and trimming models the source's split on `/\r?\n/` followed by `trim()`,
since `trim` removes the carriage return left before a `\n`. -/
def getIgnoreList (raw : String) (isWin32 : Bool) : List String :=
  (raw.splitOn "\n").filterMap (fun line =>
    let t := line.trim
    if t.isEmpty || t.data.head? == some '#' then none
    else some (normalizePat isWin32 t))

/-- Exclude patterns: `ignorePatterns.filter((p) => !p.startsWith('!'))`. -/
def positivePatterns (pats : List String) : List String :=
  pats.filter (fun p => ¬ p.data.head? = some '!')

/-- Re-include patterns: `ignorePatterns.filter((p) => p.startsWith('!')).map((p) => p.slice(1))`. -/
def negativePatterns (pats : List String) : List String :=
  (pats.filter (fun p => p.data.head? = some '!')).map (fun p => ⟨p.data.drop 1⟩)

/-! ### Binary Classifier (src/src/index.ts, `isBinaryFile`, lines 161-181) -/

/-- Characters of a path after its last `/` (the whole path when it has
none), the basename Node's `path.extname` inspects. -/
def basenameChars (l : List Char) : List Char :=
  (l.reverse.takeWhile (fun c => ¬ c = '/')).reverse

/-- Index of the last `.` in a character list, if any. -/
def lastDotIdx : List Char → Option Nat
  | [] => none
  | c :: cs =>
    match lastDotIdx cs with
    | some i => some (i + 1)
    | none => if c = '.' then some 0 else none

/-- Model of Node's `path.extname` for forward-slash paths: take the basename
(after the last `/`); the extension is the basename's suffix from its last `.`
onward, except that a basename with no dot, a basename whose only relevant dot
is its first character (a dotfile such as `.bin`), and the basename `..` have
no extension. -/
def extname (p : String) : String :=
  let base := basenameChars p.data
  match lastDotIdx base with
  | none => ""
  | some i =>
    if i = 0 then ""
    else if base = ['.', '.'] then ""
    else ⟨base.drop i⟩

/-- ASCII lowercasing, modelling JavaScript's `toLowerCase` on the extension. -/
def toLowerStr (s : String) : String := ⟨s.data.map Char.toLower⟩

/-- Binary Classifier. `content` is what reading the file yields: `none` when
the open/read fails, `some bytes` the file's bytes. The classifier returns
true immediately when the lowercased extension is `.bin`; otherwise it scans
the up-to-512-byte prefix actually read for a null byte, and returns false
when the read failed. -/
def isBinaryFile (filePath : String) (content : Option (List Nat)) : Bool :=
  if toLowerStr (extname filePath) = ".bin" then true
  else
    match content with
    | none => false
    | some bytes => decide (0 ∈ bytes.take 512)

/-! ### Table of contents (src/src/index.ts, `buildTableOfContents`, lines 187-194) -/

/-- One table-of-contents line for an (index, path) pair:
`` `${index + 1}. ${filePath}\n` ``. -/
def tocLine (e : Nat × String) : String :=
  toString (e.1 + 1) ++ ". " ++ e.2 ++ "\n"

/-- Table of contents: header line, one numbered line per file in order
(accumulated with `forEach` over the indexed list), and a final blank line. -/
def buildTableOfContents (fileList : List String) : String :=
  (fileList.enum.foldl (fun toc e => toc ++ tocLine e) "Table of Contents:\n") ++ "\n"

/-! ### File-Set Resolver (src/src/index.ts, `main`, lines 410-466)

Glob matching is delegated to the `glob` package in the source; it is a
parameter `globMatch : pattern → path → Bool` here, applied both to the
`ignore` option of the enumeration call and to the re-include pattern calls. -/

/-- The glob ignore list handed to the enumeration: the positive patterns plus
`.git/**`, `node_modules/**`, the ignore file name, the output file name and
the preamble file name, with empty strings removed (`filter(Boolean)`). -/
def ignoreGlobs (positive : List String) (ignoreFileName outputFileName : String)
    (preambleFile : Option String) : List String :=
  (positive ++
    [".git/**", "node_modules/**", ignoreFileName, outputFileName, preambleFile.getD ""]).filter
    (fun s => ¬ s.isEmpty)

/-- JavaScript `Set` insertion: add `x` unless already present, preserving
insertion order. -/
def addUnique (acc : List String) (x : String) : List String :=
  if x ∈ acc then acc else acc ++ [x]

/-- Insertion-ordered deduplication of a list, as filling a `Set` does. -/
def setUnion (l : List String) : List String := l.foldl addUnique []

/-- File-Set Resolver: enumerate the tree minus the ignore globs, gather
re-included files per negative pattern against the unfiltered tree, union the
two preserving first insertion, then delete the ignore-file, output-file and
preamble names from the result. -/
def nonIgnoredFiles (tree : List String) (globMatch : String → String → Bool)
    (ignorePatterns : List String) (ignoreFileName outputFileName : String)
    (preambleFile : Option String) : List String :=
  let positive := positivePatterns ignorePatterns
  let negative := negativePatterns ignorePatterns
  let globs := ignoreGlobs positive ignoreFileName outputFileName preambleFile
  let allFiles := tree.filter (fun f => ¬ globs.any (fun p => globMatch p f))
  let reIncluded := negative.foldl (fun acc pat => acc ++ tree.filter (fun f => globMatch pat f)) []
  let merged := setUnion (allFiles ++ reIncluded)
  merged.filter (fun f =>
    ¬ f = ignoreFileName ∧ ¬ f = outputFileName ∧ ¬ preambleFile = some f)

/-! ### Document Assembler (src/src/index.ts, `writeFilesWithIndex` lines
263-307, and the document layout of `main`, lines 539-555) -/

/-- Per-file outcome of the filesystem operations the assembler performs:
`statFail` when `fsp.stat` throws; `binary size mtime` when stat succeeds and
the classifier says binary (the metadata line shows the stat size and the
ISO-8601 modification time); `text chunks` when stat succeeds, the classifier
says text, and the read stream delivers the given chunks; `openFail` when stat
succeeds, the classifier says text, but opening the read stream fails before
any data is delivered. -/
inductive FileOutcome where
  | statFail : FileOutcome
  | binary (size : Nat) (mtime : String) : FileOutcome
  | text (chunks : List (List Nat)) : FileOutcome
  | openFail : FileOutcome
deriving DecidableEq

/-- One write event issued to the output sink: a string write or a byte-buffer
write. -/
inductive WriteEv where
  | str (s : String) : WriteEv
  | bytes (b : List Nat) : WriteEv
deriving DecidableEq

/-- Progress-observer events: `bar.increment()` and `bar.stop()`. -/
inductive BarEv where
  | inc : BarEv
  | stop : BarEv
deriving DecidableEq

/-- Section separator line for the 0-based loop index `idx`:
`` `----[${idx + 1}]\n` ``. -/
def sectionHeader (idx : Nat) : String := "----[" ++ toString (idx + 1) ++ "]\n"

/-- Write events the loop body issues for the entry at loop index `idx`. On
stat failure, nothing has been written when the catch fires, so the entry
contributes no events. Otherwise the separator and path lines are written;
binary entries then get a metadata line, text entries the (possibly truncated)
streamed bytes followed by a newline, and an open failure is caught after the
separator and path lines but before any body. -/
def fileEvents (maxSize : Nat) (idx : Nat) (relativePath : String) :
    FileOutcome → List WriteEv
  | .statFail => []
  | .binary size mtime =>
    [.str (sectionHeader idx), .str (relativePath ++ "\n"),
     .str ("[BINARY FILE] Size: " ++ toString size ++ " bytes, Modified: " ++ mtime ++ "\n")]
  | .text chunks =>
    [.str (sectionHeader idx), .str (relativePath ++ "\n"),
     .bytes (streamFileWithLimit chunks maxSize), .str "\n"]
  | .openFail => [.str (sectionHeader idx), .str (relativePath ++ "\n")]

/-- Progress increments the loop body issues for one entry: the `catch`
branches reach `continue`, which skips the `bar.increment()` at the bottom of
the loop, so only fully processed entries increment. -/
def barInc : FileOutcome → List BarEv
  | .statFail => []
  | .openFail => []
  | .binary _ _ => [.inc]
  | .text _ => [.inc]

/-- The `for` loop of `writeFilesWithIndex`: output events and progress events,
threading the loop index. -/
def writeFilesLoop (maxSize : Nat) (fs : String → FileOutcome) (bar : Bool) :
    Nat → List String → List WriteEv × List BarEv
  | _, [] => ([], [])
  | idx, p :: rest =>
    let tl := writeFilesLoop maxSize fs bar (idx + 1) rest
    (fileEvents maxSize idx p (fs p) ++ tl.1,
     (if bar then barInc (fs p) else []) ++ tl.2)

/-- Document Assembler loop: runs the per-entry loop from index 0, then calls
`bar.stop()` once, unconditionally, when a progress bar is present. -/
def writeFilesWithIndex (files : List String) (fs : String → FileOutcome)
    (maxSize : Nat) (bar : Bool) : List WriteEv × List BarEv :=
  let r := writeFilesLoop maxSize fs bar 0 files
  (r.1, r.2 ++ (if bar then [.stop] else []))

/-- Output-sink layout of `main` after the resolver: the preamble write, the
table-of-contents write, the per-file section writes, and the end marker. -/
def mainDocument (preamble : String) (files : List String) (fs : String → FileOutcome)
    (maxSize : Nat) (bar : Bool) : List WriteEv :=
  (.str preamble) :: (.str (buildTableOfContents files)) ::
    ((writeFilesWithIndex files fs maxSize bar).1 ++ [.str "--END--\n"])

/-! ### Max-size option (src/src/index.ts, `main`, line 349) -/

/-- Value of the longest leading decimal-digit run, if nonempty. -/
def digitsVal (cs : List Char) : Option Nat :=
  let ds := cs.takeWhile (fun c => c.isDigit)
  if ds.isEmpty then none
  else some (ds.foldl (fun n c => n * 10 + (c.toNat - 48)) 0)

/-- Model of JavaScript `parseInt(s, 10)`: skip leading whitespace, accept an
optional sign, then the longest digit prefix; `none` models `NaN` (no digits). -/
def parseIntJS (s : String) : Option Int :=
  match s.data.dropWhile (fun c => c.isWhitespace) with
  | '-' :: rest => (digitsVal rest).map (fun n => -(n : Int))
  | '+' :: rest => (digitsVal rest).map (fun n => (n : Int))
  | cs => (digitsVal cs).map (fun n => (n : Int))

/-- The byte ceiling computed by `main`:
`parseInt(opts.maxSize || '1048576', 10) || 1048576`. A missing or empty
option string falls back to `'1048576'`; a `NaN` or zero parse result falls
back to `1048576`. -/
def resolveMaxSize (maxSizeOpt : Option String) : Int :=
  let s :=
    match maxSizeOpt with
    | none => "1048576"
    | some v => if v.isEmpty then "1048576" else v
  match parseIntJS s with
  | none => 1048576
  | some n => if n = 0 then 1048576 else n

/-! ## Theorems -/

/-- Closed form of the streaming loop for any byte count already written. -/
theorem streamLoop_eq (maxSize : Nat) :
    ∀ (chunks : List (List Nat)) (b : Nat), b ≤ maxSize →
      streamLoop maxSize chunks b =
        if maxSize - b < (chunks.flatten).length then
          (chunks.flatten).take (maxSize - b) ++ truncMarker
        else chunks.flatten := by
  intro chunks
  induction chunks with
  | nil => intro b hb; simp [streamLoop]
  | cons c rest ih =>
    intro b hb
    simp only [streamLoop, List.flatten_cons]
    by_cases h : b + c.length > maxSize
    · rw [if_pos h, if_pos (by simp only [List.length_append]; omega)]
      rw [List.take_append_eq_append_take]
      have h0 : maxSize - b - c.length = 0 := by omega
      rw [h0, List.take_zero, List.append_nil]
    · rw [if_neg h]
      have hb' : b + c.length ≤ maxSize := by omega
      rw [ih (b + c.length) hb']
      by_cases h2 : maxSize - (b + c.length) < rest.flatten.length
      · rw [if_pos h2, if_pos (by simp only [List.length_append]; omega)]
        rw [List.take_append_eq_append_take]
        have h3 : c.take (maxSize - b) = c := List.take_of_length_le (by omega)
        have h4 : maxSize - b - c.length = maxSize - (b + c.length) := by omega
        rw [h3, h4, List.append_assoc]
      · rw [if_neg h2, if_neg (by simp only [List.length_append]; omega)]

/-- C2: for a source file delivered as `chunks`, of total byte size `S`, and a
ceiling `C` given to the Bounded Stream Writer: if `C < S` the bytes written
to the sink are exactly the first `C` bytes of the source followed by the
truncation marker line, and if `S ≤ C` the writer emits exactly the full
source content and no marker. After truncating, `streamLoop` consumes no
further chunks, so nothing past the first `C` bytes is ever written. -/
theorem streamFileWithLimit_truncation (chunks : List (List Nat)) (C : Nat) :
    (C < (chunks.flatten).length →
      streamFileWithLimit chunks C = (chunks.flatten).take C ++ truncMarker) ∧
    ((chunks.flatten).length ≤ C → streamFileWithLimit chunks C = chunks.flatten) := by
  have h := streamLoop_eq C chunks 0 (Nat.zero_le _)
  rw [Nat.sub_zero] at h
  constructor
  · intro hc; rw [streamFileWithLimit, h, if_pos hc]
  · intro hc; rw [streamFileWithLimit, h, if_neg (by omega)]

/-- Witness for `streamFileWithLimit_truncation` at a 4-byte source: ceiling 2
truncates to 2 bytes plus the marker, ceiling 9 copies the source whole. -/
theorem streamFileWithLimit_truncation_witness :
    (2 < ([[65, 66, 67], [68]] : List (List Nat)).flatten.length ∧
      streamFileWithLimit [[65, 66, 67], [68]] 2 =
        ([[65, 66, 67], [68]] : List (List Nat)).flatten.take 2 ++ truncMarker) ∧
    (([[65, 66, 67], [68]] : List (List Nat)).flatten.length ≤ 9 ∧
      streamFileWithLimit [[65, 66, 67], [68]] 9 =
        ([[65, 66, 67], [68]] : List (List Nat)).flatten) :=
  ⟨⟨by decide, (streamFileWithLimit_truncation [[65, 66, 67], [68]] 2).1 (by decide)⟩,
   ⟨by decide, (streamFileWithLimit_truncation [[65, 66, 67], [68]] 9).2 (by decide)⟩⟩

/-- Separator normalization never changes whether a pattern's first character
is the re-include marker `!`. -/
theorem normalizePat_head_bang (w : Bool) (t : String) :
    ((normalizePat w t).data.head? = some '!') ↔ (t.data.head? = some '!') := by
  cases w with
  | false => simp [normalizePat]
  | true =>
    obtain ⟨data⟩ := t
    cases data with
    | nil => simp [normalizePat]
    | cons c cs =>
      simp only [normalizePat, if_true, List.map_cons, List.head?_cons, Option.some.injEq]
      by_cases hc : c = '/'
      · subst hc; constructor <;> intro h <;> simp [winSep] at h
      · simp [winSep, hc]

/-- A pattern whose first character is `!` goes through the re-include split
with its marker stripped. -/
theorem negativePatterns_cons_pos {p : String} (h : p.data.head? = some '!')
    (ps : List String) :
    negativePatterns (p :: ps) = (⟨p.data.drop 1⟩ : String) :: negativePatterns ps := by
  simp [negativePatterns, List.filter_cons, h]

/-- A pattern not starting with `!` contributes nothing to the re-include split. -/
theorem negativePatterns_cons_neg {p : String} (h : ¬ p.data.head? = some '!')
    (ps : List String) : negativePatterns (p :: ps) = negativePatterns ps := by
  simp [negativePatterns, List.filter_cons, h]

/-- A pattern not starting with `!` is kept whole by the exclude split. -/
theorem positivePatterns_cons_neg {p : String} (h : ¬ p.data.head? = some '!')
    (ps : List String) : positivePatterns (p :: ps) = p :: positivePatterns ps := by
  simp [positivePatterns, List.filter_cons, h]

/-- A pattern starting with `!` contributes nothing to the exclude split. -/
theorem positivePatterns_cons_pos {p : String} (h : p.data.head? = some '!')
    (ps : List String) : positivePatterns (p :: ps) = positivePatterns ps := by
  simp [positivePatterns, List.filter_cons, h]

/-- Classification of the loader's output over an arbitrary line list. -/
theorem ignoreSplit_aux (w : Bool) (ls : List String) :
    (negativePatterns (ls.filterMap (fun line =>
        let t := line.trim
        if t.isEmpty || t.data.head? == some '#' then none
        else some (normalizePat w t))) =
      ls.filterMap (fun line =>
        let t := line.trim
        if t.isEmpty = false ∧ ¬ t.data.head? = some '#' ∧ t.data.head? = some '!' then
          some (⟨(normalizePat w t).data.drop 1⟩ : String)
        else none)) ∧
    (positivePatterns (ls.filterMap (fun line =>
        let t := line.trim
        if t.isEmpty || t.data.head? == some '#' then none
        else some (normalizePat w t))) =
      ls.filterMap (fun line =>
        let t := line.trim
        if t.isEmpty = false ∧ ¬ t.data.head? = some '#' ∧ ¬ t.data.head? = some '!' then
          some (normalizePat w t)
        else none)) := by
  induction ls with
  | nil => exact ⟨rfl, rfl⟩
  | cons l ls ih =>
    simp only [List.filterMap_cons]
    by_cases h1 : l.trim.isEmpty
    · simp only [h1, Bool.true_or, if_pos rfl]
      simpa [h1] using ih
    · by_cases h2 : l.trim.data.head? = some '#'
      · simp only [h1, h2]
        simpa [h1, h2] using ih
      · have hcond : (l.trim.isEmpty || l.trim.data.head? == some '#') = false := by
          simp [h1, h2]
        rw [hcond]
        simp only [Bool.false_eq_true, if_false]
        by_cases h3 : l.trim.data.head? = some '!'
        · have hkeep : (normalizePat w l.trim).data.head? = some '!' :=
            (normalizePat_head_bang w l.trim).mpr h3
          rw [negativePatterns_cons_pos hkeep, positivePatterns_cons_pos hkeep]
          constructor
          · rw [if_pos ⟨by simp [h1], h2, h3⟩, ih.1]
          · rw [if_neg (by simp [h3]), ih.2]
        · have hkeep : ¬ (normalizePat w l.trim).data.head? = some '!' := by
            intro hcontra
            exact h3 ((normalizePat_head_bang w l.trim).mp hcontra)
          rw [negativePatterns_cons_neg hkeep, positivePatterns_cons_neg hkeep]
          constructor
          · rw [if_neg (by simp [h3]), ih.1]
          · rw [if_pos ⟨by simp [h1], h2, h3⟩, ih.2]

/-- C6: for every ignore-file text and host convention, the re-include
sequence consists exactly of the trimmed lines that begin with `!` — blank
lines and `#`-comment lines excluded — with the marker stripped (after
normalization), and the exclude sequence consists exactly of the remaining
kept lines; so a pattern is a re-include iff its original trimmed line begins
with `!`, and blank or `#` lines are never materialized in either sequence. -/
theorem getIgnoreList_classification (raw : String) (w : Bool) :
    (negativePatterns (getIgnoreList raw w) =
      (raw.splitOn "\n").filterMap (fun line =>
        let t := line.trim
        if t.isEmpty = false ∧ ¬ t.data.head? = some '#' ∧ t.data.head? = some '!' then
          some (⟨(normalizePat w t).data.drop 1⟩ : String)
        else none)) ∧
    (positivePatterns (getIgnoreList raw w) =
      (raw.splitOn "\n").filterMap (fun line =>
        let t := line.trim
        if t.isEmpty = false ∧ ¬ t.data.head? = some '#' ∧ ¬ t.data.head? = some '!' then
          some (normalizePat w t)
        else none)) :=
  ignoreSplit_aux w (raw.splitOn "\n")

/-- Output events of the assembler loop, started at any index: the
concatenation of the per-entry events, each tagged with its absolute position. -/
theorem writeFilesLoop_fst (maxSize : Nat) (fs : String → FileOutcome) (bar : Bool) :
    ∀ (files : List String) (n : Nat),
      (writeFilesLoop maxSize fs bar n files).1 =
        ((files.enumFrom n).map (fun e => fileEvents maxSize e.1 e.2 (fs e.2))).flatten := by
  intro files
  induction files with
  | nil => intro n; rfl
  | cons p rest ih =>
    intro n
    simp only [writeFilesLoop, List.enumFrom, List.map_cons, List.flatten_cons, ih]

/-- C1 counterexample: with two resolved files where the first one's stat
fails, the only written section carries number 2 — its position in the
resolved list — not 1 as "one plus the count of previously written files"
demands, so the claimed renumbering is false; moreover an entry whose read
stream fails to open is not skipped without trace: its section header and
path line are already on the sink. -/
theorem writeFilesWithIndex_renumbering_false :
    ((writeFilesWithIndex ["a", "b"]
        (fun p => if p = "a" then .statFail else .text []) 10 false).1 =
      [.str "----[2]\n", .str "b\n", .bytes [], .str "\n"]) ∧
    (WriteEv.str (sectionHeader 0) ∉
      (writeFilesWithIndex ["a", "b"]
        (fun p => if p = "a" then .statFail else .text []) 10 false).1) ∧
    ((writeFilesWithIndex ["x"] (fun _ => .openFail) 5 false).1 =
      [.str "----[1]\n", .str "x\n"]) := by
  refine ⟨?_, ?_, ?_⟩ <;> decide

/-- C1 amended: a stat-failed entry is skipped with nothing written, and an
open-failed entry gets its header and path lines but no body; the section
number of every entry that does get a header is one plus its 0-based position
in the resolved list — i.e. it always agrees with the table-of-contents
numbering and never diverges when skips occur, because the loop index, not a
count of written files, feeds the header. -/
theorem writeFilesWithIndex_sections_positional (files : List String)
    (fs : String → FileOutcome) (maxSize : Nat) (bar : Bool) :
    (writeFilesWithIndex files fs maxSize bar).1 =
      (files.enum.map (fun e => fileEvents maxSize e.1 e.2 (fs e.2))).flatten :=
  writeFilesLoop_fst maxSize fs bar files 0

/-- Progress events of the assembler loop: one `barInc` block per entry when a
bar is present, nothing otherwise. -/
theorem writeFilesLoop_snd (maxSize : Nat) (fs : String → FileOutcome) :
    ∀ (files : List String) (n : Nat) (bar : Bool),
      (writeFilesLoop maxSize fs bar n files).2 =
        if bar then (files.map (fun p => barInc (fs p))).flatten else [] := by
  intro files
  induction files with
  | nil => intro n bar; cases bar <;> rfl
  | cons p rest ih =>
    intro n bar
    cases bar with
    | false => simp [writeFilesLoop, ih]
    | true => simp [writeFilesLoop, ih]

/-- Increment events among the per-entry blocks count exactly the entries the
loop processed to the end (neither stat-failed nor open-failed). -/
theorem count_inc_barIncs (fs : String → FileOutcome) :
    ∀ files : List String,
      ((files.map (fun p => barInc (fs p))).flatten).count BarEv.inc =
        files.countP (fun p => decide (fs p ≠ .statFail ∧ fs p ≠ .openFail)) := by
  intro files
  induction files with
  | nil => rfl
  | cons p rest ih =>
    simp only [List.map_cons, List.flatten_cons, List.count_append, List.countP_cons, ih]
    cases h : fs p <;> simp [barInc, List.count_cons] <;> omega

/-- No per-entry block ever contains a stop event. -/
theorem count_stop_barIncs (fs : String → FileOutcome) :
    ∀ files : List String,
      ((files.map (fun p => barInc (fs p))).flatten).count BarEv.stop = 0 := by
  intro files
  induction files with
  | nil => rfl
  | cons p rest ih =>
    simp only [List.map_cons, List.flatten_cons, List.count_append, ih]
    cases h : fs p <;> simp [barInc]

/-- C4 counterexample: one attempted entry whose stat fails, progress bar
present — the observer receives zero increments, not the one per attempted
entry the claim states. -/
theorem progress_skipped_entry_not_incremented :
    (["a"] : List String).length = 1 ∧
    (writeFilesWithIndex ["a"] (fun _ => FileOutcome.statFail) 1 true).2.count BarEv.inc = 0 := by
  exact ⟨rfl, by decide⟩

/-- C4 amended: with a progress observer present, the increment is signalled
exactly once per successfully written entry — entries skipped for stat or
open failure signal no increment, because `continue` jumps over it — while
the done/stop signal is emitted exactly once, after all per-entry events,
unconditionally; with no observer nothing is signalled. -/
theorem writeFilesWithIndex_progress (files : List String)
    (fs : String → FileOutcome) (maxSize : Nat) :
    ((writeFilesWithIndex files fs maxSize true).2.count BarEv.inc =
      files.countP (fun p => decide (fs p ≠ .statFail ∧ fs p ≠ .openFail))) ∧
    ((writeFilesWithIndex files fs maxSize true).2.count BarEv.stop = 1) ∧
    ((writeFilesWithIndex files fs maxSize true).2.getLast? = some BarEv.stop) ∧
    ((writeFilesWithIndex files fs maxSize false).2 = []) := by
  refine ⟨?_, ?_, ?_, ?_⟩
  · rw [writeFilesWithIndex]
    simp only [writeFilesLoop_snd maxSize fs files 0 true, if_true, List.count_append]
    rw [count_inc_barIncs fs files]
    simp [List.count_cons]
  · rw [writeFilesWithIndex]
    simp only [writeFilesLoop_snd maxSize fs files 0 true, if_true, List.count_append]
    rw [count_stop_barIncs fs files]
    simp [List.count_cons]
  · rw [writeFilesWithIndex]
    simp only [writeFilesLoop_snd maxSize fs files 0 true, if_true]
    exact List.getLast?_concat _
  · rw [writeFilesWithIndex]
    simp [writeFilesLoop_snd maxSize fs files 0 false]

/-- Appending into a string fold's accumulator factors out. -/
theorem foldl_append_str (l : List String) :
    ∀ (a b : String),
      l.foldl (fun r s => r ++ s) (a ++ b) = a ++ l.foldl (fun r s => r ++ s) b := by
  induction l with
  | nil => intro a b; rfl
  | cons x xs ih => intro a b; simp only [List.foldl_cons, String.append_assoc, ih]

/-- Unfolding lemma for `String.join` on a cons cell. -/
theorem join_cons_str (s : String) (l : List String) :
    String.join (s :: l) = s ++ String.join l := by
  have h := foldl_append_str l s ""
  rw [String.append_empty] at h
  show (s :: l).foldl (fun r t => r ++ t) "" = s ++ l.foldl (fun r t => r ++ t) ""
  rw [List.foldl_cons, String.empty_append]
  exact h

/-- The table-of-contents fold, from any accumulator, appends the joined
numbered lines. -/
theorem foldl_tocLine (es : List (Nat × String)) :
    ∀ acc : String,
      es.foldl (fun toc e => toc ++ tocLine e) acc = acc ++ String.join (es.map tocLine) := by
  induction es with
  | nil => intro acc; rw [List.foldl_nil, List.map_nil]; exact (String.append_empty acc).symm
  | cons e es ih =>
    intro acc
    rw [List.foldl_cons, List.map_cons, ih, join_cons_str, ← String.append_assoc]

/-- C8: the table of contents is the literal header line followed by one
numbered line per resolved entry — 1-based, in resolved order, one line for
every entry — and a trailing blank line; and in the assembled document it
occupies the write slot right after the preamble, before any file section,
with a value depending only on the resolved list, not on the per-file
outcomes `fs`, hence independent of later read failures. -/
theorem tableOfContents_layout (preamble : String) (files : List String)
    (fs : String → FileOutcome) (maxSize : Nat) (bar : Bool) :
    ((mainDocument preamble files fs maxSize bar).take 2 =
      [.str preamble, .str (buildTableOfContents files)]) ∧
    (buildTableOfContents files =
      "Table of Contents:\n" ++ String.join (files.enum.map tocLine) ++ "\n") := by
  constructor
  · rfl
  · rw [buildTableOfContents, foldl_tocLine]

/-- C9: with an empty resolved file set the assembler still produces a valid
document — the preamble, the table-of-contents header with no entries (its
trailing blank line intact), no file sections, and the terminal end marker. -/
theorem mainDocument_empty_set (preamble : String) (fs : String → FileOutcome)
    (maxSize : Nat) (bar : Bool) :
    mainDocument preamble [] fs maxSize bar =
      [.str preamble, .str "Table of Contents:\n\n", .str "--END--\n"] := by
  have h : buildTableOfContents [] = "Table of Contents:\n\n" := by decide
  cases bar <;> simp [mainDocument, writeFilesWithIndex, writeFilesLoop, h]

/-- Membership after folding `Set`-style insertions. -/
theorem mem_foldl_addUnique (x : String) :
    ∀ (l acc : List String), x ∈ l.foldl addUnique acc ↔ x ∈ acc ∨ x ∈ l := by
  intro l
  induction l with
  | nil => intro acc; simp
  | cons y ys ih =>
    intro acc
    rw [List.foldl_cons, ih]
    unfold addUnique
    by_cases h : y ∈ acc
    · rw [if_pos h]
      simp only [List.mem_cons]
      constructor
      · rintro (hx | hx)
        · exact Or.inl hx
        · exact Or.inr (Or.inr hx)
      · rintro (hx | hx | hx)
        · exact Or.inl hx
        · exact Or.inl (hx ▸ h)
        · exact Or.inr hx
    · rw [if_neg h]
      simp only [List.mem_append, List.mem_singleton, List.mem_cons]
      tauto

/-- Membership in the insertion-ordered union is membership in the input. -/
theorem mem_setUnion {x : String} {l : List String} : x ∈ setUnion l ↔ x ∈ l := by
  rw [setUnion, mem_foldl_addUnique]
  simp

/-- The re-include fold keeps everything already collected. -/
theorem mem_reIncluded_acc (tree : List String) (gm : String → String → Bool) (f : String) :
    ∀ (negs acc : List String), f ∈ acc →
      f ∈ negs.foldl (fun acc pat => acc ++ tree.filter (fun g => gm pat g)) acc := by
  intro negs
  induction negs with
  | nil => intro acc h; exact h
  | cons q qs ih =>
    intro acc h
    rw [List.foldl_cons]
    exact ih _ (List.mem_append_left _ h)

/-- A tree file matched by some negative pattern is collected by the
re-include fold. -/
theorem mem_reIncluded (tree : List String) (gm : String → String → Bool)
    (f pat : String) (hf : f ∈ tree) (hm : gm pat f = true) :
    ∀ (negs acc : List String), pat ∈ negs →
      f ∈ negs.foldl (fun acc pat => acc ++ tree.filter (fun g => gm pat g)) acc := by
  intro negs
  induction negs with
  | nil => intro acc h; cases h
  | cons q qs ih =>
    intro acc hq
    rw [List.foldl_cons]
    rcases List.mem_cons.mp hq with h | h
    · subst h
      refine mem_reIncluded_acc tree gm f qs _ (List.mem_append_right _ ?_)
      exact List.mem_filter.mpr ⟨hf, hm⟩
    · exact ih _ h

/-- C3 counterexample: the tree holds one file, the exclude pattern list is
empty (so the file matches zero exclude patterns), yet the file is absent from
the resolved set, because it bears the configured output file name and the
resolver always filters the reserved names out. Glob matching is literal
string equality here, which agrees with glob semantics on patterns with no
wildcards. -/
theorem resolver_drops_reserved_file :
    ("output.txt" ∈ (["output.txt"] : List String)) ∧
    (positivePatterns [] = []) ∧
    ("output.txt" ∉ nonIgnoredFiles ["output.txt"] (fun p f => p == f) []
      ".repo2promptignore" "output.txt" none) := by
  refine ⟨by decide, rfl, by decide⟩

/-- C3 amended: a file present in the tree that matches none of the effective
ignore globs — the exclude patterns plus the fixed `.git/**` and
`node_modules/**` globs and the reserved ignore-file/output/preamble names —
and is not itself one of those three reserved names always appears in the
resolved file set. -/
theorem nonIgnoredFiles_keeps_unexcluded (tree : List String)
    (gm : String → String → Bool) (pats : List String) (ign out : String)
    (pre : Option String) (f : String)
    (hmem : f ∈ tree)
    (hglob : ∀ p ∈ ignoreGlobs (positivePatterns pats) ign out pre, gm p f = false)
    (h1 : f ≠ ign) (h2 : f ≠ out) (h3 : ¬ pre = some f) :
    f ∈ nonIgnoredFiles tree gm pats ign out pre := by
  unfold nonIgnoredFiles
  rw [List.mem_filter]
  refine ⟨?_, by simp [h1, h2, h3]⟩
  rw [mem_setUnion, List.mem_append]
  left
  rw [List.mem_filter]
  refine ⟨hmem, ?_⟩
  simp only [decide_eq_true_eq, List.any_eq_true, not_exists]
  intro p hp
  simp [hglob p hp.1] at hp

/-- Witness for `nonIgnoredFiles_keeps_unexcluded`: a lone tree file matching
nothing survives resolution. -/
theorem nonIgnoredFiles_keeps_unexcluded_witness :
    "a.txt" ∈ nonIgnoredFiles ["a.txt"] (fun _ _ => false) []
      ".repo2promptignore" "output.txt" none :=
  nonIgnoredFiles_keeps_unexcluded ["a.txt"] (fun _ _ => false) []
    ".repo2promptignore" "output.txt" none "a.txt" (by decide)
    (fun p _ => rfl) (by decide) (by decide) (by decide)

/-- C5 counterexample: a tree file that matches an exclude pattern and also a
re-include pattern, yet is absent from the resolved set — re-include does not
win when the file bears the configured output file name, since the resolver
deletes the reserved names from the merged set after the union. -/
theorem reinclude_cannot_resurrect_reserved :
    ("output.txt" ∈ (["output.txt"] : List String)) ∧
    ("output.txt" ∈ positivePatterns ["output.txt", "!output.txt"]) ∧
    ("output.txt" ∈ negativePatterns ["output.txt", "!output.txt"]) ∧
    ("output.txt" ∉ nonIgnoredFiles ["output.txt"] (fun p f => p == f)
      ["output.txt", "!output.txt"] ".repo2promptignore" "output.txt" none) := by
  refine ⟨by decide, by decide, by decide, by decide⟩

/-- C5 amended: a tree file matched by some re-include (negative) pattern
appears in the resolved set regardless of which exclude patterns match it —
the negative patterns are matched against the original unfiltered tree and
unioned in — provided the file is not one of the reserved
ignore-file/output/preamble names, which are stripped from the union last. -/
theorem nonIgnoredFiles_reinclude_wins (tree : List String)
    (gm : String → String → Bool) (pats : List String) (ign out : String)
    (pre : Option String) (f pat : String)
    (hmem : f ∈ tree) (hpat : pat ∈ negativePatterns pats) (hm : gm pat f = true)
    (h1 : f ≠ ign) (h2 : f ≠ out) (h3 : ¬ pre = some f) :
    f ∈ nonIgnoredFiles tree gm pats ign out pre := by
  unfold nonIgnoredFiles
  rw [List.mem_filter]
  refine ⟨?_, by simp [h1, h2, h3]⟩
  rw [mem_setUnion, List.mem_append]
  right
  exact mem_reIncluded tree gm f pat hmem hm _ [] hpat

/-- Witness for `nonIgnoredFiles_reinclude_wins`: `bar.ts` is excluded by the
pattern `bar.ts` but re-included by `!bar.ts`, and resolves. -/
theorem nonIgnoredFiles_reinclude_wins_witness :
    "bar.ts" ∈ nonIgnoredFiles ["bar.ts", "foo.ts"] (fun p f => p == f)
      ["bar.ts", "!bar.ts"] ".repo2promptignore" "output.txt" none :=
  nonIgnoredFiles_reinclude_wins ["bar.ts", "foo.ts"] (fun p f => p == f)
    ["bar.ts", "!bar.ts"] ".repo2promptignore" "output.txt" none "bar.ts" "bar.ts"
    (by decide) (by decide) (by decide) (by decide) (by decide) (by decide)

/-- C7: the Binary Classifier returns true immediately — for every content
outcome, read or unreadable — when the lowercased extension is `.bin`;
otherwise it returns false on an open/read failure rather than raising, and on
a successful read it returns true exactly when some byte of the up-to-512-byte
available prefix is the null byte (false when no null byte is there, including
for files shorter than 512 bytes). -/
theorem isBinaryFile_spec (p : String) (content : Option (List Nat)) :
    (toLowerStr (extname p) = ".bin" → isBinaryFile p content = true) ∧
    (toLowerStr (extname p) ≠ ".bin" →
      isBinaryFile p none = false ∧
      ∀ bytes : List Nat, (isBinaryFile p (some bytes) = true ↔ 0 ∈ bytes.take 512)) := by
  constructor
  · intro h
    rw [isBinaryFile.eq_def, if_pos h]
  · intro h
    constructor
    · rw [isBinaryFile.eq_def, if_neg h]
    · intro bytes
      rw [isBinaryFile.eq_def, if_neg h]
      simp

/-- Witness for `isBinaryFile_spec`: an uppercase `.BIN` file is binary even
when unreadable; a `.txt` file is non-binary when unreadable, and binary
exactly when its prefix holds a null byte. -/
theorem isBinaryFile_spec_witness :
    (isBinaryFile "archive.BIN" none = true) ∧
    (isBinaryFile "notes.txt" none = false) ∧
    (isBinaryFile "notes.txt" (some [104, 0, 105]) = true ↔
      0 ∈ ([104, 0, 105] : List Nat).take 512) :=
  ⟨(isBinaryFile_spec "archive.BIN" none).1 (by decide),
   ((isBinaryFile_spec "notes.txt" none).2 (by decide)).1,
   ((isBinaryFile_spec "notes.txt" (some [104, 0, 105])).2 (by decide)).2 [104, 0, 105]⟩

/-- C10: the byte ceiling falls back to 1048576 when the `--max-size` option
is absent, when its string does not parse to any integer, and when it parses
to zero — in particular `--max-size 0` yields a ceiling of 1048576 bytes,
not 0. -/
theorem resolveMaxSize_fallback :
    (resolveMaxSize none = 1048576) ∧
    (∀ s : String, parseIntJS s = none → resolveMaxSize (some s) = 1048576) ∧
    (∀ s : String, parseIntJS s = some 0 → resolveMaxSize (some s) = 1048576) ∧
    (resolveMaxSize (some "0") = 1048576) := by
  refine ⟨by decide, ?_, ?_, by decide⟩
  · intro s h
    cases he : s.isEmpty with
    | true => simp only [resolveMaxSize, he, if_true]; decide
    | false => simp [resolveMaxSize, he, h]
  · intro s h
    cases he : s.isEmpty with
    | true => simp only [resolveMaxSize, he, if_true]; decide
    | false => simp [resolveMaxSize, he, h]

/-- Witness for `resolveMaxSize_fallback`: a non-numeric `--max-size abc`
falls back to the 1 MiB default. -/
theorem resolveMaxSize_fallback_witness :
    resolveMaxSize (some "abc") = 1048576 :=
  resolveMaxSize_fallback.2.1 "abc" (by decide)

end Repo2Prompt
